import Mathlib

set_option maxRecDepth 8000

/-!
Verification of the sshwomper SSH client (src/sshwomper.py).

The Python code is shallowly embedded: the string manipulation of the
remote-output parsers is reproduced on `List Char` with structural
recursion, stateful methods become explicit state passing over a
`Session` record, remote command execution is an oracle parameter
(`String → ChanResult`), and the interactive-shell stop protocol is a
small labelled transition system.  Python semantics that the code relies
on (`str.split`, `str.strip`, `collections.deque(maxlen=...)`,
`float(...)`, dict comparison, `posixpath` functions, regex `sub`) are
modelled at ASCII level, matching CPython behaviour on the inputs the
program feeds them.
-/

namespace Sshwomper

/-! ### Python string primitives (ASCII model) -/

/-- CPython whitespace for `str.split()` / `str.strip()` (ASCII subset). -/
def pyIsSpace (c : Char) : Bool :=
  c = ' ' || c = '\t' || c = '\n' || c = '\r' || c = '\x0b' || c = '\x0c'

/-- Python strip on a character list. -/
def pyStripL (l : List Char) : List Char :=
  ((l.dropWhile pyIsSpace).reverse.dropWhile pyIsSpace).reverse

/-- Python `s.strip()`. -/
def pyStrip (s : String) : String := ⟨pyStripL s.data⟩

/-- Python split with a split budget: first argument is the remaining number of
splits.  Leading whitespace is skipped; once the split budget is
exhausted the remainder (leading whitespace removed) is returned
verbatim as the final element, as CPython does. -/
def pySplitMaxAux : Nat → List Char → List String
  | m, l =>
    let l1 := l.dropWhile pyIsSpace
    match l1 with
    | [] => []
    | c :: r =>
      match m with
      | 0 => [⟨c :: r⟩]
      | m + 1 =>
        ⟨(c :: r).takeWhile (fun ch => !pyIsSpace ch)⟩ ::
          pySplitMaxAux m ((c :: r).dropWhile (fun ch => !pyIsSpace ch))

/-- Python `s.split(None, maxsplit)`. -/
def pySplitMax (s : String) (maxsplit : Nat) : List String :=
  pySplitMaxAux maxsplit s.data

/-- Python `s.split()` (unlimited whitespace split).  A budget of
`s.length` splits can never be exhausted, since every produced token
consumes at least one character. -/
def pySplitWS (s : String) : List String :=
  pySplitMaxAux s.data.length s.data

/-- Python `s.split(sep)` for a one-character separator: keeps empty
pieces, `"".split(sep) = [""]`. -/
def splitOnCh (sep : Char) : List Char → List (List Char)
  | [] => [[]]
  | c :: r =>
    let rest := splitOnCh sep r
    if c = sep then [] :: rest
    else
      match rest with
      | h :: t => (c :: h) :: t
      | [] => [[c]]

/-- Python `stdout.split(sep)` for a one-character separator. -/
def pySplitChar (s : String) (sep : Char) : List String :=
  (splitOnCh sep s.data).map (fun l => ⟨l⟩)

/-- Python `sep.join(parts)`. -/
def joinSep (sep : String) : List String → String
  | [] => ""
  | [x] => x
  | x :: y :: xs => x ++ sep ++ joinSep sep (y :: xs)

/-- Tests that the first list is a leading piece of the second. -/
def listStarts : List Char → List Char → Bool
  | [], _ => true
  | _ :: _, [] => false
  | p :: ps, c :: cs => p = c && listStarts ps cs

/-- Python `s.startswith(p)`. -/
def strStarts (s p : String) : Bool := listStarts p.data s.data

/-- Python `s.endswith(c)` for one character. -/
def strEnds (s : String) (c : Char) : Bool :=
  match s.data.getLast? with
  | some d => d = c
  | none => false

/-- Python `c in s` for one character. -/
def strHasChar (s : String) (c : Char) : Bool := s.data.contains c

/-- ASCII `str.lower` on one character. -/
def pyCharLower (c : Char) : Char :=
  if 'A' ≤ c ∧ c ≤ 'Z' then Char.ofNat (c.toNat + 32) else c

/-- Python `s.lower()` (ASCII model). -/
def pyLower (s : String) : String := ⟨s.data.map pyCharLower⟩

/-! ### Remote execution model

`paramiko` is the external transport.  A one-shot remote execution is an
oracle `String → ChanResult`: either the three streams and the exit
status, or a channel-level exception carrying its message. -/

inductive ChanResult where
  | ok (stdout stderr : String) (code : Nat)
  | err (msg : String)

/-- The body of `SSHClient.execute_command`'s `try` block together with
its `except` clause: read and strip both streams, query the exit code;
a raised channel error is recovered as `("", str(e), 1)`. -/
def runExec (chan : String → ChanResult) (command : String) :
    String × String × Nat :=
  match chan command with
  | .ok o e c => (pyStrip o, pyStrip e, c)
  | .err m => ("", m, 1)

/-- Model of `SSHClient.execute_command`: raises (`.error`) only when there is no
connected client; otherwise always returns the recovered triple. -/
def execute_command (connected : Bool) (chan : String → ChanResult)
    (command : String) : Except String (String × String × Nat) :=
  if connected then .ok (runExec chan command)
  else .error "Not connected to SSH server"

/-- The mutable session state the path operations touch:
`self.current_path`. -/
structure Session where
  current_path : String
deriving DecidableEq, Repr

/-! ### Directory listing — `SSHClient.list_directory` (claims C1, C8, C10) -/

/-- One parsed row of `ls -la` output (the dict appended to `items`). -/
structure DirEntry where
  name : String
  type : String
  permissions : String
  size : String
  raw_line : String
deriving DecidableEq, Repr

/-- The `if/elif` chain classifying a permission string. -/
def entryType (permissions : String) : String :=
  if strStarts permissions "d" then "directory"
  else if strStarts permissions "l" then "link"
  else if strHasChar permissions 'x' then "executable"
  else "file"

/-- The body of the per-line loop in `list_directory`: skip blank lines,
skip lines with fewer than 9 whitespace tokens, skip `.` and `..`,
otherwise build the entry from tokens 0, 4 and 8.. of the line. -/
def parseLsLine (line : String) : Option DirEntry :=
  if pyStrip line = "" then none
  else
    let parts := pySplitWS line
    if parts.length < 9 then none
    else
      let permissions := parts.getD 0 ""
      let size := parts.getD 4 ""
      let name := joinSep " " (parts.drop 8)
      if name = "." ∨ name = ".." then none
      else
        some { name := name, type := entryType permissions,
               permissions := permissions, size := size, raw_line := line }

/-- The accumulation loop of `list_directory` over the lines after the
first (`for line in lines[1:]: ... items.append(...)`). -/
def lsLoop (lines : List String) : List DirEntry :=
  lines.foldl (fun items line =>
    match parseLsLine line with
    | some e => items ++ [e]
    | none => items) []

/-- The listing command string: ls -la with the single-quoted target. -/
def ls_command (target : String) : String := "ls -la \x27" ++ target ++ "\x27"

/-- Model of `SSHClient.list_directory` on a connected session: the post-state is
returned explicitly; the method never assigns `self.current_path`. -/
def list_directory (s : Session) (chan : String → ChanResult)
    (path : Option String) : Except String (List DirEntry) × Session :=
  let target :=
    match path with
    | none => s.current_path
    | some p => if p = "" then s.current_path else p
  let r := runExec chan (ls_command target)
  if r.2.2 ≠ 0 then (.error ("Failed to list directory: " ++ r.2.1), s)
  else (.ok (lsLoop ((pySplitChar r.1 '\n').drop 1)), s)

/-! ### Navigation — `SSHClient.change_directory` (claim C4)

The host-side path arithmetic uses `os.path` on POSIX-style paths; the
`posixpath` implementations of `dirname`, `join` and `normpath` are
reproduced below.  (The subsequent `.replace('\\', '/')` in the source
is the identity here, since `posixpath.normpath` output never contains a
backslash.) -/

/-- Python `s.rstrip('/')`. -/
def rstripSlash (s : String) : String :=
  ⟨(s.data.reverse.dropWhile (fun c => c = '/')).reverse⟩

/-- Model of `posixpath.dirname`. -/
def posixDirname (p : String) : String :=
  let head := (p.data.reverse.dropWhile (fun c => c ≠ '/')).reverse
  if head ≠ [] ∧ ¬ head.all (fun c => c = '/') then
    ⟨(head.reverse.dropWhile (fun c => c = '/')).reverse⟩
  else ⟨head⟩

/-- Model of `posixpath.join` for two components. -/
def posixJoin (a b : String) : String :=
  if strStarts b "/" then b
  else if a = "" ∨ strEnds a '/' then a ++ b
  else a ++ "/" ++ b

/-- Model of `posixpath.normpath`. -/
def posixNormpath (path : String) : String :=
  if path = "" then "."
  else
    let initialSlashes : Nat :=
      if strStarts path "//" ∧ ¬ strStarts path "///" then 2
      else if strStarts path "/" then 1
      else 0
    let comps := pySplitChar path '/'
    let newComps := comps.foldl (fun acc comp =>
      if comp = "" ∨ comp = "." then acc
      else if comp ≠ ".." ∨ (initialSlashes = 0 ∧ acc = []) ∨
          (acc ≠ [] ∧ acc.getLast? = some "..") then acc ++ [comp]
      else if acc ≠ [] then acc.dropLast
      else acc) []
    let p := (⟨List.replicate initialSlashes '/'⟩ : String) ++ joinSep "/" newComps
    if p = "" then "." else p

/-- The path resolution in `change_directory`: `..` steps to the parent
of the current path (root if empty), absolute targets are taken as is,
relative targets are joined on; the result is normalized and forced
absolute. -/
def resolve_path (current path : String) : String :=
  let new_path :=
    if path = ".." then
      let d := posixDirname (rstripSlash current)
      if d = "" then "/" else d
    else if strStarts path "/" then path
    else posixJoin current path
  let np := posixNormpath new_path
  if strStarts np "/" then np else "/" ++ np

/-- The probe command string: cd into the single-quoted resolved path and pwd. -/
def cd_command (current path : String) : String :=
  "cd \x27" ++ resolve_path current path ++ "\x27 && pwd"

/-- Model of `SSHClient.change_directory` on a connected session: a non-zero exit
of the probe command raises (`.error`) with the state untouched;
otherwise `current_path` becomes the stripped stdout, which is also
returned.  (The best-effort SFTP `chdir` mirror swallows its errors and
touches no modelled state.) -/
def change_directory (s : Session) (chan : String → ChanResult)
    (path : String) : Except String String × Session :=
  let r := runExec chan (cd_command s.current_path path)
  if r.2.2 ≠ 0 then (.error ("Cannot access directory: " ++ r.2.1), s)
  else (.ok (pyStrip r.1), { current_path := pyStrip r.1 })

/-! ### Process listing — `SSHClient.get_processes` (claim C7)

`float(parts[2])` / `float(parts[3])` are modelled by an ASCII CPython
`float()` literal parser: acceptance is exact (sign, digits with single
underscores between digits, optional fraction and exponent, `inf`,
`infinity`, `nan`, case-insensitive, surrounding whitespace); the
accepted decimal value is kept as sign, mantissa and power of ten, IEEE
rounding being outside the model. -/

inductive PyFloat where
  | finite (neg : Bool) (mantissa : Nat) (exp : Int)
  | infinite (neg : Bool)
  | nan
deriving DecidableEq, Repr

/-- Optional leading sign; `true` means negative. -/
def parseSign : List Char → Bool × List Char
  | '+' :: r => (false, r)
  | '-' :: r => (true, r)
  | l => (false, l)

/-- Maximal run of digits with single underscores allowed between two
digits; accumulates the value and the digit count, returning the rest. -/
def digitsGroup : List Char → Nat → Nat → Nat × Nat × List Char
  | [], v, n => (v, n, [])
  | [c], v, n =>
    if c.isDigit then (v * 10 + (c.toNat - 48), n + 1, []) else (v, n, [c])
  | c :: d :: r, v, n =>
    if c.isDigit then digitsGroup (d :: r) (v * 10 + (c.toNat - 48)) (n + 1)
    else if c = '_' ∧ d.isDigit ∧ 0 < n then
      digitsGroup r (v * 10 + (d.toNat - 48)) (n + 1)
    else (v, n, c :: d :: r)

/-- Case-insensitive comparison against an ASCII keyword. -/
def ciEq (l : List Char) (w : List Char) : Bool := l.map pyCharLower == w

/-- Exponent part after `e`/`E`: optional sign then a nonempty digit
group consuming the whole rest. -/
def parseExp (r : List Char) : Option Int :=
  let sr := parseSign r
  let g := digitsGroup sr.2 0 0
  if 0 < g.2.1 ∧ g.2.2 = [] then
    some (if sr.1 then -(g.1 : Int) else (g.1 : Int))
  else none

/-- The body of `float(...)` after whitespace stripping. -/
def parseFloatBody (l : List Char) : Option PyFloat :=
  let sl := parseSign l
  let neg := sl.1
  let l1 := sl.2
  if ciEq l1 "inf".data ∨ ciEq l1 "infinity".data then some (.infinite neg)
  else if ciEq l1 "nan".data then some .nan
  else
    let gi := digitsGroup l1 0 0
    let ip := gi.1
    let nI := gi.2.1
    let frac :=
      match gi.2.2 with
      | '.' :: rf =>
        let gf := digitsGroup rf 0 0
        (ip * 10 ^ gf.2.1 + gf.1, gf.2.1, true, gf.2.2)
      | r1 => (ip, 0, false, r1)
    if nI = 0 ∧ (¬ frac.2.2.1 ∨ frac.2.1 = 0) then none
    else
      match frac.2.2.2 with
      | [] => some (.finite neg frac.1 (-(frac.2.1 : Int)))
      | e :: re =>
        if e = 'e' ∨ e = 'E' then
          match parseExp re with
          | some ex => some (.finite neg frac.1 (ex - (frac.2.1 : Int)))
          | none => none
        else none

/-- CPython `float(s)` on a string: strip whitespace, reject empty,
parse the literal requiring full consumption; `none` is `ValueError`. -/
def pyFloat (s : String) : Option PyFloat :=
  let l := pyStripL s.data
  if l = [] then none else parseFloatBody l

/-- One row of `ps aux` output (the dict appended to `processes`). -/
structure ProcessEntry where
  user : String
  pid : String
  cpu : PyFloat
  mem : PyFloat
  vsz : String
  rss : String
  tty : String
  stat : String
  start : String
  time : String
  command : String
deriving DecidableEq, Repr

/-- The body of the per-line loop in `get_processes`: skip blank lines,
split into at most 11 fields, skip rows with fewer than 11 fields, skip
rows whose CPU or MEM field fails `float()` (the `except ValueError`
path); otherwise build the record.  The `IndexError` arm of the
`except` is unreachable once 11 fields exist. -/
def parseProcessLine (line : String) : Option ProcessEntry :=
  if pyStrip line = "" then none
  else
    let parts := pySplitMax line 10
    if parts.length < 11 then none
    else
      match pyFloat (parts.getD 2 ""), pyFloat (parts.getD 3 "") with
      | some cpu, some mem =>
        some { user := parts.getD 0 "", pid := parts.getD 1 "", cpu := cpu,
               mem := mem, vsz := parts.getD 4 "", rss := parts.getD 5 "",
               tty := parts.getD 6 "", stat := parts.getD 7 "",
               start := parts.getD 8 "", time := parts.getD 9 "",
               command := parts.getD 10 "" }
      | _, _ => none

/-- The accumulation loop of `get_processes` over the lines after the
header. -/
def psLoop (lines : List String) : List ProcessEntry :=
  lines.foldl (fun ps line =>
    match parseProcessLine line with
    | some p => ps ++ [p]
    | none => ps) []

/-- The process-table command string used by `get_processes`. -/
def ps_command : String := "ps aux --sort=-%cpu | head -n 15"

/-- Model of `SSHClient.get_processes` on a connected session. -/
def get_processes (chan : String → ChanResult) :
    Except String (List ProcessEntry) :=
  let r := runExec chan ps_command
  if r.2.2 ≠ 0 then .error ("Failed to get processes: " ++ r.2.1)
  else .ok (psLoop ((pySplitChar r.1 '\n').drop 1))

/-! ### Presentation ordering — `DirectoryExplorer.refresh_directory`
(claim C8): directories first, each block sorted by `name.lower()` with
Python's stable `sorted`. -/

/-- Tests whether the entry type equals directory, as the list comprehensions do. -/
def isDirectoryEntry (e : DirEntry) : Bool := e.type == "directory"

/-- The comparison of Python sorted keyed on the lowercased name. -/
def nameKeyLe (a b : DirEntry) : Bool :=
  decide (pyLower a.name ≤ pyLower b.name)

/-- Python's stable `sorted` under the case-insensitive name key. -/
def sortByNameCI (l : List DirEntry) : List DirEntry := l.mergeSort nameKeyLe

/-- The display order produced by `refresh_directory` from the parsed
entries: the `directories` list comprehension sorted, then the `files`
list comprehension sorted. -/
def refresh_order (items : List DirEntry) : List DirEntry :=
  sortByNameCI (items.filter isDirectoryEntry) ++
    sortByNameCI (items.filter (fun e => !isDirectoryEntry e))

/-! ### HistoryBuffer — `collections.deque(maxlen=200)` (claim C2)

`self.history = collections.deque(maxlen=200)`; every append site
(`send_to_shell`, `execute_user_command`, `_on_shell_output`) goes
through `deque.append`, whose semantics at full capacity is to discard
the leftmost (oldest) element. -/

/-- Capacity of the history deque, from `collections.deque(maxlen=200)`. -/
def historyCap : Nat := 200

/-- Bounded append of `deque.append` under a maxlen bound: add on the right, discard from
the left when over capacity. -/
def historyAppend (q : List String) (x : String) : List String :=
  let q' := q ++ [x]
  if historyCap < q'.length then q'.drop (q'.length - historyCap) else q'

/-- Replaying a whole sequence of appends from the empty buffer. -/
def historyRun (xs : List String) : List String :=
  xs.foldl historyAppend []

/-! ### Persisted connection registry — `SSHClient._save_client` (claim C3) -/

/-- The `connection_info` dict: `hostname`, `username`, `port`, and
`password` only when one was supplied. -/
structure ConnectionInfo where
  hostname : String
  username : String
  port : Nat
  password : Option String
deriving DecidableEq, Repr

/-- The dict comprehension dropping the password key, used on both sides
of the duplicate comparison. -/
def stripPassword (c : ConnectionInfo) : ConnectionInfo :=
  { c with password := none }

/-- Model of the `_save_client` classmethod: append `info` to the stored list only when
no stored profile matches it with the password removed from both sides. -/
def save_client (existing : List ConnectionInfo) (info : ConnectionInfo) :
    List ConnectionInfo :=
  if stripPassword info ∈ existing.map stripPassword then existing
  else existing ++ [info]

/-! ### ANSI filtering — `_filter_ansi` (claim C6)

`re.compile(r'\x1b(?:\[[?0-9;]*[a-zA-Z]|\][0-9];.*?\x07|[()][AB012])')`
applied with `sub('', text)`.  `re.sub` scans left to right; at each
position the escape must be followed by one of the three alternatives:
CSI with parameter bytes from the class `[?0-9;]` ended by an ASCII
letter; OSC as `]` one digit `;` then a lazy body ended by BEL (`.`
does not cross a newline); or `(`/`)` followed by one of `A B 0 1 2`.
Character classes are expressed on code points. -/

/-- The class `[0-9]`. -/
def isAsciiDigit (c : Char) : Bool := 48 ≤ c.toNat && c.toNat ≤ 57

/-- The class `[?0-9;]`. -/
def isCsiParam (c : Char) : Bool :=
  c.toNat = 63 || isAsciiDigit c || c.toNat = 59

/-- The class `[a-zA-Z]`. -/
def isAsciiLetter (c : Char) : Bool :=
  (97 ≤ c.toNat && c.toNat ≤ 122) || (65 ≤ c.toNat && c.toNat ≤ 90)

/-- The class `[AB012]` of charset designators the pattern accepts. -/
def isCharsetDesignator (c : Char) : Bool :=
  c = 'A' || c = 'B' || c = '0' || c = '1' || c = '2'

/-- The CSI tail after ESC and the open bracket: greedy parameter run, then an
ASCII letter; the classes are disjoint, so greedy matching is
deterministic. -/
def csiTail : List Char → Option (List Char)
  | [] => none
  | c :: cs =>
    if isCsiParam c then csiTail cs
    else if isAsciiLetter c then some cs
    else none

/-- The OSC tail after ESC, the close bracket, a digit and a semicolon:
lazy, so the body ends at the
first BEL, and `.` cannot cross a newline. -/
def oscTail : List Char → Option (List Char)
  | [] => none
  | c :: cs =>
    if c = '\x07' then some cs
    else if c = '\n' then none
    else oscTail cs

/-- The alternative `\[[?0-9;]*[a-zA-Z]` (after the escape byte). -/
def matchCSI : List Char → Option (List Char)
  | '[' :: rest => csiTail rest
  | _ => none

/-- The alternative `\][0-9];.*?\x07` (after the escape byte). -/
def matchOSC : List Char → Option (List Char)
  | ']' :: d :: ';' :: rest => if isAsciiDigit d then oscTail rest else none
  | _ => none

/-- The alternative `[()][AB012]` (after the escape byte). -/
def matchCharset : List Char → Option (List Char)
  | b :: x :: rest =>
    if (b = '(' ∨ b = ')') ∧ isCharsetDesignator x then some rest else none
  | _ => none

/-- The three alternatives tried at an escape byte; their leading
characters are distinct, so the order of alternation is immaterial. -/
def matchEsc (l : List Char) : Option (List Char) :=
  match matchCSI l with
  | some r => some r
  | none =>
    match matchOSC l with
    | some r => some r
    | none => matchCharset l

/-- The `sub('', ...)` scan.  Every step consumes at least one
character, so fuel equal to the input length suffices; the fuel-0 case
is unreachable from `filterAnsiL`. -/
def filterAnsiF : Nat → List Char → List Char
  | 0, _ => []
  | _ + 1, [] => []
  | fuel + 1, c :: rest =>
    if c = '\x1b' then
      match matchEsc rest with
      | some r => filterAnsiF fuel r
      | none => c :: filterAnsiF fuel rest
    else c :: filterAnsiF fuel rest

/-- The filter on a character list. -/
def filterAnsiL (l : List Char) : List Char := filterAnsiF l.length l

/-- Model of the `_filter_ansi` methods of `ShellReaderThread` and `SSHClient`. -/
def filter_ansi (s : String) : String := ⟨filterAnsiL s.data⟩

/-! ### Interactive-shell stop protocol (claim C9)

The labelled transition system below models one run of the
QThread-based shell: `startedState` is the state just after a
successful `start_interactive_shell` (owner flag `shell_running` set,
reader thread live, no queued `finished` signal, no `shell_stopped`
notification delivered yet).  Events:

* `stopCall` — `stop_interactive_shell`: clears `shell_running` first,
  stops and joins the thread (whose `finished` signal is then queued —
  it is delivered later by the event loop, the handler being a queued
  connection from the worker thread), and unconditionally emits
  `shell_stopped` at the end;
* `readerExit` — the reader loop terminates on its own, queueing
  `finished`;
* `deliverFinished` — the event loop delivers `finished` to
  `_on_shell_thread_finished`, which emits `shell_stopped` only when
  `shell_running` is still set, clearing it.

`stops` counts `shell_stopped` emissions (each notifies every
subscriber once). -/

structure ShellState where
  shell_running : Bool
  threadAlive : Bool
  finishedPending : Bool
  stops : Nat
deriving DecidableEq, Repr

inductive ShellEvent where
  | stopCall
  | readerExit
  | deliverFinished
deriving DecidableEq, Repr

def shellStep (st : ShellState) : ShellEvent → ShellState
  | .stopCall =>
    { shell_running := false,
      threadAlive := false,
      finishedPending := st.finishedPending || st.threadAlive,
      stops := st.stops + 1 }
  | .readerExit =>
    if st.threadAlive then
      { st with threadAlive := false, finishedPending := true }
    else st
  | .deliverFinished =>
    if st.finishedPending then
      if st.shell_running then
        { st with finishedPending := false, shell_running := false,
                  stops := st.stops + 1 }
      else { st with finishedPending := false }
    else st

def startedState : ShellState :=
  { shell_running := true, threadAlive := true,
    finishedPending := false, stops := 0 }

/-- The state after a sequence of events following a start. -/
def shellRun (es : List ShellEvent) : ShellState :=
  es.foldl shellStep startedState

/-- Invariant tying the owner's flag to the notification count: while
`shell_running` is still set nothing has been emitted; once it is
cleared at least one notification went out; and a dead thread whose
`finished` signal has been consumed implies a notification went out. -/
def ShellInv (st : ShellState) : Prop :=
  (st.shell_running = true → st.stops = 0) ∧
  (st.shell_running = false → 1 ≤ st.stops) ∧
  (st.finishedPending = false → st.threadAlive = false → 1 ≤ st.stops)

/-! ### Theorems: C2 -/

theorem historyAppend_length_le (q : List String) (x : String) :
    (historyAppend q x).length ≤ max (q.length + 1) historyCap := by
  unfold historyAppend
  dsimp only
  split
  · simp only [List.length_drop, List.length_append, List.length_cons,
      List.length_nil]
    omega
  · simp only [List.length_append, List.length_cons, List.length_nil]
    omega

theorem historyRun_eq_drop (xs : List String) :
    historyRun xs = xs.drop (xs.length - historyCap) := by
  have key : ∀ (xs q : List String), q.length ≤ historyCap →
      xs.foldl historyAppend q = (q ++ xs).drop (q.length + xs.length - historyCap) := by
    intro xs
    induction xs with
    | nil =>
      intro q hq
      simp only [List.foldl_nil, List.append_nil, List.length_nil, Nat.add_zero]
      have : q.length - historyCap = 0 := by omega
      rw [this, List.drop_zero]
    | cons x xs ih =>
      intro q hq
      have hstep : historyAppend q x =
          (q ++ [x]).drop (q.length + 1 - historyCap) := by
        unfold historyAppend
        dsimp only
        split
        · simp only [List.length_append, List.length_cons, List.length_nil]
        · have : q.length + 1 - historyCap = 0 := by
            simp only [List.length_append, List.length_cons, List.length_nil] at *
            omega
          rw [this, List.drop_zero]
      have hlen : (historyAppend q x).length ≤ historyCap := by
        rw [hstep]
        simp only [List.length_drop, List.length_append, List.length_cons,
          List.length_nil]
        omega
      rw [List.foldl_cons, ih _ hlen, hstep]
      have hk : q.length + 1 - historyCap ≤ (q ++ [x]).length := by
        simp only [List.length_append, List.length_cons, List.length_nil]
        omega
      rw [← List.drop_append_of_le_length hk, List.drop_drop]
      have harr : q ++ [x] ++ xs = q ++ x :: xs := by simp
      rw [harr]
      congr 1
      simp only [List.length_drop, List.length_append, List.length_cons,
        List.length_nil]
      omega
  have h := key xs [] (by simp [historyCap])
  simpa [historyRun] using h

/-- C2: the history buffer never exceeds 200 entries; appending to a
full buffer evicts exactly the oldest entry while preserving the order
of the rest (FIFO); consequently replaying any sequence of appends from
the empty buffer leaves precisely the most recent 200 entries, in
insertion order. -/
theorem history_bounded_fifo :
    (∀ xs : List String, (historyRun xs).length ≤ 200) ∧
    (∀ (q : List String) (x : String), q.length = 200 →
        historyAppend q x = q.drop 1 ++ [x]) ∧
    (∀ xs : List String, historyRun xs = xs.drop (xs.length - 200)) := by
  refine ⟨?_, ?_, ?_⟩
  · intro xs
    rw [historyRun_eq_drop]
    simp only [List.length_drop, historyCap]
    omega
  · intro q x hq
    unfold historyAppend
    dsimp only
    have hlen : (q ++ [x]).length = 201 := by simp [hq]
    rw [if_pos (by rw [hlen]; decide), hlen]
    have : 201 - historyCap = 1 := by decide
    rw [this]
    exact List.drop_append_of_le_length (by omega)
  · intro xs
    exact historyRun_eq_drop xs

/-- Closed instance of C2: filling the buffer with 201 distinct entries
keeps only the latest 200, and a full buffer evicts its head. -/
theorem history_bounded_fifo_witness :
    historyAppend ((List.range 200).map toString) "x"
      = ((List.range 200).map toString).drop 1 ++ ["x"] :=
  history_bounded_fifo.2.1 ((List.range 200).map toString) "x" (by simp)

/-! ### Theorems: C3 -/

/-- C3: saving a profile appends it exactly when no stored profile
matches it ignoring the password; hence persisting two profiles that
differ only in the password stores only the first, and from an empty
registry exactly one entry results. -/
theorem save_client_dedup_ignores_password :
    (∀ (l : List ConnectionInfo) (info : ConnectionInfo),
        save_client l info =
          if stripPassword info ∈ l.map stripPassword then l else l ++ [info]) ∧
    (∀ (l : List ConnectionInfo) (p₁ p₂ : ConnectionInfo),
        stripPassword p₁ = stripPassword p₂ →
        save_client (save_client l p₁) p₂ = save_client l p₁) ∧
    (∀ p₁ p₂ : ConnectionInfo, stripPassword p₁ = stripPassword p₂ →
        save_client (save_client [] p₁) p₂ = [p₁]) := by
  have base : ∀ (l : List ConnectionInfo) (p₁ p₂ : ConnectionInfo),
      stripPassword p₁ = stripPassword p₂ →
      save_client (save_client l p₁) p₂ = save_client l p₁ := by
    intro l p₁ p₂ h
    by_cases hmem : stripPassword p₁ ∈ l.map stripPassword
    · have h1 : save_client l p₁ = l := by rw [save_client, if_pos hmem]
      rw [h1, save_client, if_pos (h ▸ hmem)]
    · have h1 : save_client l p₁ = l ++ [p₁] := by rw [save_client, if_neg hmem]
      have h2 : stripPassword p₂ ∈ (l ++ [p₁]).map stripPassword := by
        rw [List.map_append]
        exact List.mem_append_right _ (by simp [h])
      rw [h1, save_client, if_pos h2]
  refine ⟨fun l info => rfl, base, ?_⟩
  intro p₁ p₂ h
  rw [base [] p₁ p₂ h]
  rfl

/-- Closed instance of C3: two concrete profiles differing only in the
password collapse to a single registry entry. -/
theorem save_client_dedup_witness :
    save_client (save_client []
        ⟨"h", "u", 22, some "pw1"⟩) ⟨"h", "u", 22, some "pw2"⟩
      = [⟨"h", "u", 22, some "pw1"⟩] :=
  save_client_dedup_ignores_password.2.2
    ⟨"h", "u", 22, some "pw1"⟩ ⟨"h", "u", 22, some "pw2"⟩ rfl

/-! ### Helper lemmas about the split/strip primitives -/

theorem dropWhile_ws_nil_of_strip :
    ∀ l : List Char, pyStripL l = [] → l.dropWhile pyIsSpace = [] := by
  intro l h
  induction l with
  | nil => rfl
  | cons c t ih =>
    by_cases hc : pyIsSpace c
    · rw [List.dropWhile_cons, if_pos hc]
      apply ih
      unfold pyStripL at h ⊢
      rwa [List.dropWhile_cons, if_pos hc] at h
    · exfalso
      unfold pyStripL at h
      rw [List.dropWhile_cons, if_neg hc] at h
      have h2 : ((c :: t).reverse.dropWhile pyIsSpace) = [] :=
        List.reverse_eq_nil_iff.mp h
      have h3 : ∀ x ∈ (c :: t).reverse, pyIsSpace x :=
        List.dropWhile_eq_nil_iff.mp h2
      exact hc (h3 c (by simp))

theorem pySplitWS_nil_of_strip (s : String) (h : pyStrip s = "") :
    pySplitWS s = [] := by
  have hd : pyStripL s.data = [] := congrArg String.data h
  have hdw := dropWhile_ws_nil_of_strip s.data hd
  unfold pySplitWS pySplitMaxAux
  rw [hdw]

theorem pySplitMaxAux_length_le :
    ∀ (m : Nat) (l : List Char), (pySplitMaxAux m l).length ≤ m + 1 := by
  intro m
  induction m with
  | zero =>
    intro l
    unfold pySplitMaxAux
    cases l.dropWhile pyIsSpace <;> simp
  | succ m ih =>
    intro l
    unfold pySplitMaxAux
    cases l.dropWhile pyIsSpace with
    | nil => simp
    | cons c r =>
      simp only [List.length_cons]
      exact Nat.succ_le_succ (ih _)

theorem loopGo_lsLoop :
    ∀ (lines : List String) (acc : List DirEntry),
      lines.foldl (fun items line =>
          match parseLsLine line with
          | some e => items ++ [e]
          | none => items) acc
        = acc ++ lines.filterMap parseLsLine := by
  intro lines
  induction lines with
  | nil => intro acc; simp
  | cons x l ih =>
    intro acc
    rw [List.foldl_cons]
    cases hx : parseLsLine x with
    | some e =>
      dsimp only
      rw [ih, List.filterMap_cons, hx]
      simp
    | none =>
      dsimp only
      rw [ih, List.filterMap_cons, hx]

theorem lsLoop_eq_filterMap (lines : List String) :
    lsLoop lines = lines.filterMap parseLsLine := by
  unfold lsLoop
  rw [loopGo_lsLoop]
  exact List.nil_append _

theorem loopGo_psLoop :
    ∀ (lines : List String) (acc : List ProcessEntry),
      lines.foldl (fun ps line =>
          match parseProcessLine line with
          | some p => ps ++ [p]
          | none => ps) acc
        = acc ++ lines.filterMap parseProcessLine := by
  intro lines
  induction lines with
  | nil => intro acc; simp
  | cons x l ih =>
    intro acc
    rw [List.foldl_cons]
    cases hx : parseProcessLine x with
    | some p =>
      dsimp only
      rw [ih, List.filterMap_cons, hx]
      simp
    | none =>
      dsimp only
      rw [ih, List.filterMap_cons, hx]

theorem psLoop_eq_filterMap (lines : List String) :
    psLoop lines = lines.filterMap parseProcessLine := by
  unfold psLoop
  rw [loopGo_psLoop]
  exact List.nil_append _

theorem parseLsLine_no_dot (line : String) (e : DirEntry)
    (h : parseLsLine line = some e) : e.name ≠ "." ∧ e.name ≠ ".." := by
  unfold parseLsLine at h
  dsimp only at h
  split_ifs at h with h1 h2 h3
  push_neg at h3
  cases h
  exact h3

theorem listing_ok_inv (s : Session) (chan : String → ChanResult)
    (target : String) (entries : List DirEntry)
    (h : (if (runExec chan (ls_command target)).2.2 ≠ 0 then
            ((Except.error ("Failed to list directory: " ++
              (runExec chan (ls_command target)).2.1) :
                Except String (List DirEntry)), s)
          else (Except.ok (lsLoop
            ((pySplitChar (runExec chan (ls_command target)).1 '\n').drop 1)),
            s)).1 = Except.ok entries) :
    entries = lsLoop
      ((pySplitChar (runExec chan (ls_command target)).1 '\n').drop 1) := by
  by_cases hrc : (runExec chan (ls_command target)).2.2 ≠ 0
  · rw [if_pos hrc] at h
    simp at h
  · rw [if_neg hrc] at h
    dsimp only at h
    exact ((Except.ok.injEq _ _).mp h).symm

/-! ### Theorems: C1 -/

/-- C1: for each listing line after the first, lines with fewer than 9
whitespace tokens are dropped; otherwise the produced entry takes its
permission string from token 0, its size from token 4, its name from
tokens 8.. rejoined with single spaces, and its type from the leading
`d` / leading `l` / any-`x` / otherwise classification; entries named
`.` or `..` are excluded, and no entry named `.` or `..` ever reaches a
successful listing result. -/
theorem listing_parser_contract :
    (∀ line : String,
      ((pySplitWS line).length < 9 → parseLsLine line = none) ∧
      (9 ≤ (pySplitWS line).length →
        (((joinSep " " ((pySplitWS line).drop 8)) = "." ∨
          (joinSep " " ((pySplitWS line).drop 8)) = "..") →
            parseLsLine line = none) ∧
        ((joinSep " " ((pySplitWS line).drop 8)) ≠ "." →
         (joinSep " " ((pySplitWS line).drop 8)) ≠ ".." →
          parseLsLine line = some
            { name := joinSep " " ((pySplitWS line).drop 8),
              type :=
                if strStarts ((pySplitWS line).getD 0 "") "d" then "directory"
                else if strStarts ((pySplitWS line).getD 0 "") "l" then "link"
                else if strHasChar ((pySplitWS line).getD 0 "") 'x' then
                  "executable"
                else "file",
              permissions := (pySplitWS line).getD 0 "",
              size := (pySplitWS line).getD 4 "",
              raw_line := line }))) ∧
    (∀ lines : List String, lsLoop lines = lines.filterMap parseLsLine) ∧
    (∀ (s : Session) (chan : String → ChanResult) (path : Option String)
        (entries : List DirEntry),
      (list_directory s chan path).1 = .ok entries →
      ∀ e ∈ entries, e.name ≠ "." ∧ e.name ≠ "..") := by
  refine ⟨?_, lsLoop_eq_filterMap, ?_⟩
  · intro line
    constructor
    · intro hlen
      by_cases hs : pyStrip line = ""
      · unfold parseLsLine
        rw [if_pos hs]
      · unfold parseLsLine
        rw [if_neg hs]
        dsimp only
        rw [if_pos hlen]
    · intro hlen
      have hs : pyStrip line ≠ "" := by
        intro hs
        have := pySplitWS_nil_of_strip line hs
        rw [this] at hlen
        simp at hlen
      constructor
      · intro hname
        unfold parseLsLine
        rw [if_neg hs]
        dsimp only
        rw [if_neg (by omega), if_pos hname]
      · intro h1 h2
        unfold parseLsLine
        rw [if_neg hs]
        dsimp only
        rw [if_neg (by omega), if_neg (by tauto)]
        rfl
  · intro s chan path entries h e he
    unfold list_directory at h
    dsimp only at h
    have hent := listing_ok_inv s chan _ entries h
    rw [hent, lsLoop_eq_filterMap] at he
    obtain ⟨line, _, hparse⟩ := List.mem_filterMap.mp he
    exact parseLsLine_no_dot line e hparse

/-- Closed instance of C1: a nine-token line parses to a directory
entry with the documented fields; an eight-token line is dropped. -/
theorem listing_parser_contract_witness :
    parseLsLine "drwxr-xr-x 2 root root 4096 Jan 1 12:00 my dir"
      = some { name := "my dir", type := "directory",
               permissions := "drwxr-xr-x", size := "4096",
               raw_line := "drwxr-xr-x 2 root root 4096 Jan 1 12:00 my dir" }
      ∧ parseLsLine "total 42" = none := by
  constructor
  · exact ((listing_parser_contract.1
      "drwxr-xr-x 2 root root 4096 Jan 1 12:00 my dir").2 (by decide)).2
      (by decide) (by decide)
  · exact (listing_parser_contract.1 "total 42").1 (by decide)

/-! ### Theorems: C4 -/

/-- C4: `change_directory` updates the session path exactly when the
`cd ... && pwd` probe exits with code 0 (to the stripped stdout); a
non-zero exit yields the `NavigationError` result with the session
state exactly as before the call. -/
theorem navigate_exit_code_gates_path :
    ∀ (s : Session) (chan : String → ChanResult) (path : String),
      ((runExec chan (cd_command s.current_path path)).2.2 ≠ 0 →
        change_directory s chan path =
          (.error ("Cannot access directory: " ++
              (runExec chan (cd_command s.current_path path)).2.1), s)) ∧
      ((runExec chan (cd_command s.current_path path)).2.2 = 0 →
        change_directory s chan path =
          (.ok (pyStrip (runExec chan (cd_command s.current_path path)).1),
           { current_path :=
              pyStrip (runExec chan (cd_command s.current_path path)).1 })) := by
  intro s chan path
  constructor
  · intro h
    unfold change_directory
    rw [if_pos h]
  · intro h
    unfold change_directory
    rw [if_neg (by omega)]

/-- Closed instance of C4: a probe failing with exit code 1 leaves the
session at `/a` and surfaces the failure. -/
theorem navigate_exit_code_gates_path_witness :
    change_directory ⟨"/a"⟩ (fun _ => .ok "" "denied" 1) ".."
      = (.error ("Cannot access directory: " ++
          (runExec (fun _ => .ok "" "denied" 1)
            (cd_command "/a" "..")).2.1), ⟨"/a"⟩) :=
  (navigate_exit_code_gates_path ⟨"/a"⟩ (fun _ => .ok "" "denied" 1) "..").1
    (by decide)

/-! ### Theorems: C5 -/

/-- C5: on a connected session `execute_command` always returns a
`(stdout, stderr, exitCode)` triple — never an exception — and a
channel-level failure is recovered as `("", errorMessage, 1)`. -/
theorem execute_command_recovers :
    (∀ (chan : String → ChanResult) (command : String),
        ∃ t : String × String × Nat,
          execute_command true chan command = .ok t) ∧
    (∀ (chan : String → ChanResult) (command msg : String),
        chan command = .err msg →
        execute_command true chan command = .ok ("", msg, 1)) := by
  constructor
  · intro chan command
    exact ⟨runExec chan command, rfl⟩
  · intro chan command msg h
    unfold execute_command runExec
    rw [h]
    rfl

/-- Closed instance of C5: a raised channel error surfaces as the
recovered triple. -/
theorem execute_command_recovers_witness :
    execute_command true (fun _ => .err "boom") "ls"
      = .ok ("", "boom", 1) :=
  execute_command_recovers.2 (fun _ => .err "boom") "ls" "boom" rfl

/-! ### Theorems: C7 -/

/-- C7: process-table lines are split into at most 11 fields (the last
keeping its embedded spaces); rows with fewer than 11 fields or with a
CPU or MEM field rejected by `float()` are dropped silently while every
other row of the same output is retained — one malformed row changes
nothing else; and a successful listing is exactly the per-row parse of
the lines after the header. -/
theorem process_rows_dropped_silently :
    (∀ line : String, (pySplitMax line 10).length ≤ 11) ∧
    (∀ line : String, (pySplitMax line 10).length < 11 →
        parseProcessLine line = none) ∧
    (∀ line : String,
        (pyFloat ((pySplitMax line 10).getD 2 "") = none ∨
         pyFloat ((pySplitMax line 10).getD 3 "") = none) →
        parseProcessLine line = none) ∧
    (∀ (header bad : String) (pre suf : List String),
        parseProcessLine bad = none →
        psLoop ((header :: (pre ++ bad :: suf)).drop 1)
          = psLoop ((header :: (pre ++ suf)).drop 1)) ∧
    (∀ (chan : String → ChanResult) (ps : List ProcessEntry),
        get_processes chan = .ok ps →
        ps = ((pySplitChar (runExec chan ps_command).1 '\n').drop 1).filterMap
              parseProcessLine) := by
  refine ⟨?_, ?_, ?_, ?_, ?_⟩
  · intro line
    exact pySplitMaxAux_length_le 10 line.data
  · intro line hlen
    by_cases hs : pyStrip line = ""
    · unfold parseProcessLine
      rw [if_pos hs]
    · unfold parseProcessLine
      rw [if_neg hs]
      dsimp only
      rw [if_pos hlen]
  · intro line hfl
    by_cases hs : pyStrip line = ""
    · unfold parseProcessLine
      rw [if_pos hs]
    · unfold parseProcessLine
      rw [if_neg hs]
      dsimp only
      by_cases hlen : (pySplitMax line 10).length < 11
      · rw [if_pos hlen]
      · rw [if_neg hlen]
        cases hc : pyFloat ((pySplitMax line 10).getD 2 "") with
        | none => rfl
        | some cpu =>
          cases hm : pyFloat ((pySplitMax line 10).getD 3 "") with
          | none => rfl
          | some mem =>
            exfalso
            rcases hfl with h | h
            · rw [hc] at h; cases h
            · rw [hm] at h; cases h
  · intro header bad pre suf hbad
    simp only [List.drop_succ_cons, List.drop_zero]
    rw [psLoop_eq_filterMap, psLoop_eq_filterMap, List.filterMap_append,
      List.filterMap_append, List.filterMap_cons, hbad]
  · intro chan ps h
    unfold get_processes at h
    dsimp only at h
    split_ifs at h with hrc
    cases h
    exact psLoop_eq_filterMap _

/-- Closed instance of C7: a row whose CPU field is `abc` is dropped
while the surrounding well-formed rows survive unchanged. -/
theorem process_rows_dropped_silently_witness :
    psLoop (("USER PID %CPU %MEM VSZ RSS TTY STAT START TIME COMMAND" ::
        (["root 1 0.3 0.1 100 200 ? Ss 10:00 0:01 /sbin/init"] ++
          "root 2 abc 0.1 100 200 ? Ss 10:00 0:01 bad row" ::
          ["www 9 1.5 2.0 10 20 ? R 11:00 0:02 nginx -g daemon"])).drop 1)
      = psLoop (("USER PID %CPU %MEM VSZ RSS TTY STAT START TIME COMMAND" ::
        (["root 1 0.3 0.1 100 200 ? Ss 10:00 0:01 /sbin/init"] ++
          ["www 9 1.5 2.0 10 20 ? R 11:00 0:02 nginx -g daemon"])).drop 1) :=
  process_rows_dropped_silently.2.2.2.1
    "USER PID %CPU %MEM VSZ RSS TTY STAT START TIME COMMAND"
    "root 2 abc 0.1 100 200 ? Ss 10:00 0:01 bad row"
    ["root 1 0.3 0.1 100 200 ? Ss 10:00 0:01 /sbin/init"]
    ["www 9 1.5 2.0 10 20 ? R 11:00 0:02 nginx -g daemon"]
    (by decide)

/-! ### Theorems: C8 -/

theorem nameKeyLe_trans : ∀ a b c : DirEntry,
    nameKeyLe a b = true → nameKeyLe b c = true → nameKeyLe a c = true := by
  intro a b c
  unfold nameKeyLe
  simp only [decide_eq_true_eq]
  exact le_trans

theorem nameKeyLe_total : ∀ a b : DirEntry,
    (nameKeyLe a b || nameKeyLe b a) = true := by
  intro a b
  unfold nameKeyLe
  simp only [Bool.or_eq_true, decide_eq_true_eq]
  exact le_total _ _

/-- C8: the displayed listing order is a permutation of the parsed
entries consisting of all directories first, sorted by case-insensitive
name, followed by all non-directories sorted by case-insensitive
name. -/
theorem display_order_directories_first :
    ∀ items : List DirEntry,
      (refresh_order items).Perm items ∧
      ∃ ds fs, refresh_order items = ds ++ fs ∧
        (∀ e ∈ ds, e.type = "directory") ∧
        (∀ e ∈ fs, e.type ≠ "directory") ∧
        ds.Pairwise (fun a b => pyLower a.name ≤ pyLower b.name) ∧
        fs.Pairwise (fun a b => pyLower a.name ≤ pyLower b.name) := by
  intro items
  constructor
  · unfold refresh_order sortByNameCI
    exact ((List.mergeSort_perm _ _).append (List.mergeSort_perm _ _)).trans
      (List.filter_append_perm _ _)
  · refine ⟨sortByNameCI (items.filter isDirectoryEntry),
      sortByNameCI (items.filter (fun e => !isDirectoryEntry e)), rfl,
      ?_, ?_, ?_, ?_⟩
    · intro e he
      have hmem : e ∈ items.filter isDirectoryEntry :=
        (List.mergeSort_perm _ _).mem_iff.mp he
      have := (List.mem_filter.mp hmem).2
      unfold isDirectoryEntry at this
      exact eq_of_beq this
    · intro e he
      have hmem : e ∈ items.filter (fun e => !isDirectoryEntry e) :=
        (List.mergeSort_perm _ _).mem_iff.mp he
      have hb := (List.mem_filter.mp hmem).2
      simp only [Bool.not_eq_true'] at hb
      unfold isDirectoryEntry at hb
      intro hcontra
      rw [hcontra] at hb
      simp at hb
    · exact (List.sorted_mergeSort nameKeyLe_trans nameKeyLe_total _).imp
        (fun h => (decide_eq_true_eq).mp h)
    · exact (List.sorted_mergeSort nameKeyLe_trans nameKeyLe_total _).imp
        (fun h => (decide_eq_true_eq).mp h)

/-- Closed instance of C8: the display order of a concrete mixed
listing is a permutation of its input. -/
theorem display_order_directories_first_witness :
    (refresh_order
      [⟨"b.txt", "file", "-rw-r--r--", "10", "l1"⟩,
       ⟨"Adir", "directory", "drwxr-xr-x", "4096", "l2"⟩]).Perm
      [⟨"b.txt", "file", "-rw-r--r--", "10", "l1"⟩,
       ⟨"Adir", "directory", "drwxr-xr-x", "4096", "l2"⟩] :=
  (display_order_directories_first
    [⟨"b.txt", "file", "-rw-r--r--", "10", "l1"⟩,
     ⟨"Adir", "directory", "drwxr-xr-x", "4096", "l2"⟩]).1

/-! ### Theorems: C10 -/

/-- C10: listing a directory — any path argument, any outcome — returns
the session state unchanged: only navigation and connection assign the
current path. -/
theorem list_directory_preserves_path :
    ∀ (s : Session) (chan : String → ChanResult) (path : Option String),
      (list_directory s chan path).2 = s := by
  intro s chan path
  unfold list_directory
  dsimp only
  split_ifs <;> rfl

/-! ### Theorems: C6 -/

theorem letter_not_csiParam (c : Char) (h : isAsciiLetter c = true) :
    isCsiParam c = false := by
  unfold isAsciiLetter at h
  unfold isCsiParam isAsciiDigit
  simp only [Bool.or_eq_true, Bool.and_eq_true, decide_eq_true_eq] at h
  simp only [Bool.or_eq_false_iff, Bool.and_eq_false_iff,
    decide_eq_false_iff_not, Bool.or_eq_false_iff] at *
  omega

theorem csiTail_le : ∀ (l r : List Char), csiTail l = some r →
    r.length ≤ l.length := by
  intro l
  induction l with
  | nil => intro r h; cases h
  | cons c cs ih =>
    intro r h
    unfold csiTail at h
    split_ifs at h with h1 h2
    · have := ih r h
      simp only [List.length_cons]
      omega
    · cases h
      simp only [List.length_cons]
      omega

theorem oscTail_le : ∀ (l r : List Char), oscTail l = some r →
    r.length ≤ l.length := by
  intro l
  induction l with
  | nil => intro r h; cases h
  | cons c cs ih =>
    intro r h
    unfold oscTail at h
    split_ifs at h with h1 h2
    · cases h
      simp only [List.length_cons]
      omega
    · have := ih r h
      simp only [List.length_cons]
      omega

theorem matchCSI_le (l r : List Char) (h : matchCSI l = some r) :
    r.length ≤ l.length := by
  unfold matchCSI at h
  split at h
  · have := csiTail_le _ _ h
    simp only [List.length_cons]
    omega
  · cases h

theorem matchOSC_le (l r : List Char) (h : matchOSC l = some r) :
    r.length ≤ l.length := by
  unfold matchOSC at h
  split at h
  · split_ifs at h
    have := oscTail_le _ _ h
    simp only [List.length_cons]
    omega
  · cases h

theorem matchCharset_le (l r : List Char) (h : matchCharset l = some r) :
    r.length ≤ l.length := by
  unfold matchCharset at h
  split at h
  · split_ifs at h
    cases h
    simp only [List.length_cons]
    omega
  · cases h

theorem matchEsc_le (l r : List Char) (h : matchEsc l = some r) :
    r.length ≤ l.length := by
  unfold matchEsc at h
  cases h1 : matchCSI l with
  | some r1 =>
    rw [h1] at h
    cases h
    exact matchCSI_le l r h1
  | none =>
    rw [h1] at h
    cases h2 : matchOSC l with
    | some r2 =>
      rw [h2] at h
      cases h
      exact matchOSC_le l r h2
    | none =>
      rw [h2] at h
      exact matchCharset_le l r h

theorem filterAnsiF_fuel : ∀ (f1 f2 : Nat) (l : List Char),
    l.length ≤ f1 → l.length ≤ f2 → filterAnsiF f1 l = filterAnsiF f2 l := by
  intro f1
  induction f1 with
  | zero =>
    intro f2 l h1 _
    have hl : l = [] := List.eq_nil_of_length_eq_zero (Nat.le_zero.mp h1)
    subst hl
    cases f2 <;> rfl
  | succ f ih =>
    intro f2 l h1 h2
    cases l with
    | nil => cases f2 <;> rfl
    | cons c rest =>
      cases f2 with
      | zero => simp at h2
      | succ g =>
        have hrf : rest.length ≤ f := by
          simp only [List.length_cons] at h1; omega
        have hrg : rest.length ≤ g := by
          simp only [List.length_cons] at h2; omega
        show filterAnsiF (f + 1) (c :: rest) = filterAnsiF (g + 1) (c :: rest)
        unfold filterAnsiF
        by_cases hc : c = '\x1b'
        · rw [if_pos hc, if_pos hc]
          cases hm : matchEsc rest with
          | some r =>
            have hr := matchEsc_le rest r hm
            exact ih g r (le_trans hr hrf) (le_trans hr hrg)
          | none =>
            exact congrArg (c :: ·) (ih g rest hrf hrg)
        · rw [if_neg hc, if_neg hc]
          exact congrArg (c :: ·) (ih g rest hrf hrg)

theorem filterAnsiF_cons (fuel : Nat) (c : Char) (rest : List Char) :
    filterAnsiF (fuel + 1) (c :: rest) =
      if c = '\x1b' then
        match matchEsc rest with
        | some r => filterAnsiF fuel r
        | none => c :: filterAnsiF fuel rest
      else c :: filterAnsiF fuel rest := rfl

theorem filterAnsiL_cons_keep (c : Char) (rest : List Char)
    (h : c ≠ '\x1b' ∨ matchEsc rest = none) :
    filterAnsiL (c :: rest) = c :: filterAnsiL rest := by
  unfold filterAnsiL
  show filterAnsiF (rest.length + 1) (c :: rest) = c :: filterAnsiF rest.length rest
  rw [filterAnsiF_cons]
  rcases h with h | h
  · rw [if_neg h]
  · by_cases hc : c = '\x1b'
    · rw [if_pos hc, h]
    · rw [if_neg hc]

theorem filterAnsiL_cons_esc (rest r : List Char)
    (h : matchEsc rest = some r) :
    filterAnsiL ('\x1b' :: rest) = filterAnsiL r := by
  unfold filterAnsiL
  show filterAnsiF (rest.length + 1) ('\x1b' ::
    rest) = filterAnsiF r.length r
  rw [filterAnsiF_cons, if_pos rfl, h]
  exact filterAnsiF_fuel rest.length r.length r (matchEsc_le rest r h) le_rfl

theorem csiTail_params : ∀ (p : List Char) (L : Char) (s : List Char),
    (∀ c ∈ p, isCsiParam c = true) → isAsciiLetter L = true →
    csiTail (p ++ L :: s) = some s := by
  intro p
  induction p with
  | nil =>
    intro L s _ hL
    show csiTail (L :: s) = some s
    unfold csiTail
    rw [if_neg (by rw [letter_not_csiParam L hL]; exact Bool.false_ne_true),
      if_pos hL]
  | cons c p ih =>
    intro L s hp hL
    show csiTail (c :: (p ++ L :: s)) = some s
    unfold csiTail
    rw [if_pos (hp c (by simp))]
    exact ih L s (fun d hd => hp d (by simp [hd])) hL

theorem oscTail_text : ∀ (t s : List Char),
    '\x07' ∉ t → '\n' ∉ t → oscTail (t ++ '\x07' :: s) = some s := by
  intro t
  induction t with
  | nil =>
    intro s _ _
    show oscTail ('\x07' :: s) = some s
    unfold oscTail
    rw [if_pos rfl]
  | cons c t ih =>
    intro s h7 hn
    have hc7 : c ≠ '\x07' := fun hc => h7 (hc ▸ List.mem_cons_self c t)
    have hcn : c ≠ '\n' := fun hc => hn (hc ▸ List.mem_cons_self c t)
    show oscTail (c :: (t ++ '\x07' :: s)) = some s
    unfold oscTail
    rw [if_neg hc7, if_neg hcn]
    exact ih s (fun hx => h7 (List.mem_cons_of_mem c hx))
      (fun hx => hn (List.mem_cons_of_mem c hx))

theorem matchEsc_csi (p : List Char) (L : Char) (s : List Char)
    (hp : ∀ c ∈ p, isCsiParam c = true) (hL : isAsciiLetter L = true) :
    matchEsc ('[' :: (p ++ L :: s)) = some s := by
  have h1 : matchCSI ('[' :: (p ++ L :: s)) = some s :=
    csiTail_params p L s hp hL
  unfold matchEsc
  rw [h1]

theorem matchEsc_osc (d : Char) (t s : List Char)
    (hd : isAsciiDigit d = true) (h7 : '\x07' ∉ t) (hn : '\n' ∉ t) :
    matchEsc (']' :: d :: ';' :: (t ++ '\x07' :: s)) = some s := by
  have h1 : matchCSI (']' :: d :: ';' :: (t ++ '\x07' :: s)) = none := rfl
  have h2 : matchOSC (']' :: d :: ';' :: (t ++ '\x07' :: s)) = some s := by
    show (if isAsciiDigit d then oscTail (t ++ '\x07' :: s) else none) = some s
    rw [if_pos hd]
    exact oscTail_text t s h7 hn
  unfold matchEsc
  rw [h1, h2]

theorem matchEsc_charset (b x : Char) (s : List Char)
    (hb : b = '(' ∨ b = ')') (hx : isCharsetDesignator x = true) :
    matchEsc (b :: x :: s) = some s := by
  have h3 : matchCharset (b :: x :: s) = some s := by
    show (if (b = '(' ∨ b = ')') ∧ isCharsetDesignator x then some s
      else none) = some s
    rw [if_pos ⟨hb, hx⟩]
  rcases hb with hb | hb <;> subst hb
  · unfold matchEsc
    rw [show matchCSI ('(' :: x :: s) = none from rfl,
      show matchOSC ('(' :: x :: s) = none from rfl, h3]
  · unfold matchEsc
    rw [show matchCSI (')' :: x :: s) = none from rfl,
      show matchOSC (')' :: x :: s) = none from rfl, h3]

/-- C6 counterexample: the claim promises removal of `ESC ( X` for any
designator `X`, but the pattern only accepts `A B 0 1 2`: on the input
`"\x1b(K"` the filter keeps the sequence instead of producing `""`. -/
theorem ansi_filter_any_designator_refuted :
    filter_ansi "\x1b(K" = "\x1b(K" ∧ filter_ansi "\x1b(K" ≠ "" := by
  constructor
  · rfl
  · decide

/-- C6 (amended): the filter removes every CSI sequence `ESC [ p* L`
with parameter bytes from `[?0-9;]` and an ASCII letter terminator,
every OSC sequence of the shape `ESC ] digit ; text BEL` whose body
contains neither BEL nor newline, and the charset-select sequences
`ESC ( X` / `ESC ) X` exactly for designators `X ∈ {A, B, 0, 1, 2}`;
any character not consumed by such a match is kept unchanged; in
particular `"\x1b[31mHello\x1b[0m"` filters to `"Hello"` and
`"\x1b]0;title\x07World"` filters to `"World"`. -/
theorem ansi_filter_strips_sequences :
    (∀ (c : Char) (rest : List Char),
        (c ≠ '\x1b' ∨ matchEsc rest = none) →
        filterAnsiL (c :: rest) = c :: filterAnsiL rest) ∧
    (∀ (p : List Char) (L : Char) (s : List Char),
        (∀ c ∈ p, isCsiParam c = true) → isAsciiLetter L = true →
        filterAnsiL ('\x1b' :: '[' :: (p ++ L :: s)) = filterAnsiL s) ∧
    (∀ (d : Char) (t s : List Char), isAsciiDigit d = true →
        '\x07' ∉ t → '\n' ∉ t →
        filterAnsiL ('\x1b' :: ']' :: d :: ';' :: (t ++ '\x07' :: s))
          = filterAnsiL s) ∧
    (∀ (b x : Char) (s : List Char), (b = '(' ∨ b = ')') →
        isCharsetDesignator x = true →
        filterAnsiL ('\x1b' :: b :: x :: s) = filterAnsiL s) ∧
    (filter_ansi "\x1b[31mHello\x1b[0m" = "Hello" ∧
      filter_ansi "\x1b]0;title\x07World" = "World") := by
  refine ⟨filterAnsiL_cons_keep, ?_, ?_, ?_, by decide, by decide⟩
  · intro p L s hp hL
    exact filterAnsiL_cons_esc _ _ (matchEsc_csi p L s hp hL)
  · intro d t s hd h7 hn
    exact filterAnsiL_cons_esc _ _ (matchEsc_osc d t s hd h7 hn)
  · intro b x s hb hx
    exact filterAnsiL_cons_esc _ _ (matchEsc_charset b x s hb hx)

/-- Closed instance of the amended C6: a red-coloured `Hello` loses its
colour codes, and the charset designator `B` is stripped. -/
theorem ansi_filter_strips_sequences_witness :
    filterAnsiL ('\x1b' :: '[' :: (['3', '1'] ++ 'm' :: "ok".data))
        = filterAnsiL "ok".data
      ∧ filterAnsiL ('\x1b' :: '(' :: 'B' :: "hi".data)
        = filterAnsiL "hi".data := by
  constructor
  · exact ansi_filter_strips_sequences.2.1 ['3', '1'] 'm' "ok".data
      (by decide) (by decide)
  · exact ansi_filter_strips_sequences.2.2.2.1 '(' 'B' "hi".data
      (Or.inl rfl) (by decide)


/-! ### Theorems: C9 -/

theorem shellStep_inv (st : ShellState) (e : ShellEvent)
    (h : ShellInv st) : ShellInv (shellStep st e) := by
  obtain ⟨i1, i2, i3⟩ := h
  cases e with
  | stopCall =>
    refine ⟨?_, ?_, ?_⟩
    · intro hru
      exact absurd hru (by simp [shellStep])
    · intro _
      show 1 ≤ st.stops + 1
      omega
    · intro _ _
      show 1 ≤ st.stops + 1
      omega
  | readerExit =>
    by_cases ha : st.threadAlive
    · refine ⟨?_, ?_, ?_⟩
      · intro hru
        simp only [shellStep, if_pos ha] at hru ⊢
        exact i1 hru
      · intro hru
        simp only [shellStep, if_pos ha] at hru ⊢
        exact i2 hru
      · intro hp _
        simp only [shellStep, if_pos ha] at hp
        cases hp
    · simp only [shellStep, if_neg ha]
      exact ⟨i1, i2, i3⟩
  | deliverFinished =>
    by_cases hp : st.finishedPending
    · by_cases hr : st.shell_running
      · refine ⟨?_, ?_, ?_⟩
        · intro hru
          simp only [shellStep, if_pos hp, if_pos hr] at hru
          cases hru
        · intro _
          simp only [shellStep, if_pos hp, if_pos hr]
          show 1 ≤ st.stops + 1
          omega
        · intro _ _
          simp only [shellStep, if_pos hp, if_pos hr]
          show 1 ≤ st.stops + 1
          omega
      · have hr' : st.shell_running = false := by
          cases hrv : st.shell_running
          · rfl
          · exact absurd hrv hr
        refine ⟨?_, ?_, ?_⟩
        · intro hru
          simp only [shellStep, if_pos hp, if_neg hr] at hru ⊢
          exact i1 hru
        · intro _
          simp only [shellStep, if_pos hp, if_neg hr]
          exact i2 hr'
        · intro _ _
          simp only [shellStep, if_pos hp, if_neg hr]
          exact i2 hr'
    · simp only [shellStep, if_neg hp]
      exact ⟨i1, i2, i3⟩

theorem shellInv_started : ShellInv startedState := by
  refine ⟨fun _ => rfl, fun h => ?_, fun _ h => ?_⟩
  · simp [startedState] at h
  · simp [startedState] at h

theorem shellFold_inv : ∀ (es : List ShellEvent) (st : ShellState),
    ShellInv st → ShellInv (es.foldl shellStep st) := by
  intro es
  induction es with
  | nil => intro st h; exact h
  | cons e es ih =>
    intro st h
    rw [List.foldl_cons]
    exact ih _ (shellStep_inv st e h)

theorem shellStep_stops_le (st : ShellState) (e : ShellEvent) :
    st.stops ≤ (shellStep st e).stops := by
  cases e with
  | stopCall => exact Nat.le_succ _
  | readerExit =>
    by_cases ha : st.threadAlive
    · simp only [shellStep, if_pos ha]
      exact le_rfl
    · simp only [shellStep, if_neg ha]
      exact le_rfl
  | deliverFinished =>
    by_cases hp : st.finishedPending
    · by_cases hr : st.shell_running
      · simp only [shellStep, if_pos hp, if_pos hr]
        exact Nat.le_succ _
      · simp only [shellStep, if_pos hp, if_neg hr]
        exact le_rfl
    · simp only [shellStep, if_neg hp]
      exact le_rfl

theorem shellStep_stops_le_succ (st : ShellState) (e : ShellEvent) :
    (shellStep st e).stops ≤ st.stops + 1 := by
  cases e with
  | stopCall => exact le_rfl
  | readerExit =>
    by_cases ha : st.threadAlive
    · simp only [shellStep, if_pos ha]
      exact Nat.le_succ _
    · simp only [shellStep, if_neg ha]
      exact Nat.le_succ _
  | deliverFinished =>
    by_cases hp : st.finishedPending
    · by_cases hr : st.shell_running
      · simp only [shellStep, if_pos hp, if_pos hr]
        exact le_rfl
      · simp only [shellStep, if_pos hp, if_neg hr]
        exact Nat.le_succ _
    · simp only [shellStep, if_neg hp]
      exact Nat.le_succ _

theorem shellStep_emit_cases (st : ShellState) (e : ShellEvent)
    (h : (shellStep st e).stops = st.stops + 1) :
    e = .stopCall ∨ (e = .deliverFinished ∧ st.finishedPending = true ∧
      st.shell_running = true) := by
  cases e with
  | stopCall => exact Or.inl rfl
  | readerExit =>
    exfalso
    by_cases ha : st.threadAlive
    · simp only [shellStep, if_pos ha] at h
      omega
    · simp only [shellStep, if_neg ha] at h
      omega
  | deliverFinished =>
    by_cases hp : st.finishedPending
    · by_cases hr : st.shell_running
      · exact Or.inr ⟨rfl, hp, hr⟩
      · exfalso
        simp only [shellStep, if_pos hp, if_neg hr] at h
        omega
    · exfalso
      simp only [shellStep, if_neg hp] at h
      omega

theorem shellFold_stops_mono : ∀ (es : List ShellEvent) (st : ShellState),
    st.stops ≤ (es.foldl shellStep st).stops := by
  intro es
  induction es with
  | nil => intro st; exact le_rfl
  | cons e es ih =>
    intro st
    rw [List.foldl_cons]
    exact le_trans (shellStep_stops_le st e) (ih _)

theorem shellStep_alive_mono (st : ShellState) (e : ShellEvent)
    (h : st.threadAlive = false) : (shellStep st e).threadAlive = false := by
  cases e with
  | stopCall => rfl
  | readerExit =>
    simp only [shellStep, h]
    exact h
  | deliverFinished =>
    by_cases hp : st.finishedPending
    · by_cases hr : st.shell_running
      · simp only [shellStep, if_pos hp, if_pos hr]
        exact h
      · simp only [shellStep, if_pos hp, if_neg hr]
        exact h
    · simp only [shellStep, if_neg hp]
      exact h

theorem shellFold_alive_mono : ∀ (es : List ShellEvent) (st : ShellState),
    st.threadAlive = false → (es.foldl shellStep st).threadAlive = false := by
  intro es
  induction es with
  | nil => intro st h; exact h
  | cons e es ih =>
    intro st h
    rw [List.foldl_cons]
    exact ih _ (shellStep_alive_mono st e h)

theorem stops_crossing : ∀ (es : List ShellEvent) (st : ShellState) (n : Nat),
    st.stops ≤ n → n < (es.foldl shellStep st).stops →
    ∃ l e r, es = l ++ e :: r ∧ (l.foldl shellStep st).stops = n ∧
      (shellStep (l.foldl shellStep st) e).stops = n + 1 := by
  intro es
  induction es with
  | nil =>
    intro st n h1 h2
    simp only [List.foldl_nil] at h2
    omega
  | cons e es ih =>
    intro st n h1 h2
    rw [List.foldl_cons] at h2
    by_cases hst : (shellStep st e).stops ≤ n
    · obtain ⟨l, e', r, hsplit, hl, hstep⟩ := ih (shellStep st e) n hst h2
      refine ⟨e :: l, e', r, ?_, ?_, ?_⟩
      · rw [hsplit]
        rfl
      · rw [List.foldl_cons]
        exact hl
      · rw [List.foldl_cons]
        exact hstep
    · push_neg at hst
      have hle := shellStep_stops_le_succ st e
      have h0 : st.stops = n := by omega
      refine ⟨[], e, es, rfl, ?_, ?_⟩
      · simpa using h0
      · simp only [List.foldl_nil]
        omega

/-- C9: within one run of the shell channel — a start followed by
events in which any `stop()` call happens before a stop notification
has gone out (the claim's "one start until the next time it is
stopped") — at most one stop notification is delivered; it is
delivered exactly once both when `stop()` is called and when the
reader loop terminates unexpectedly on its own and its completion
signal is delivered. -/
theorem shell_stop_notified_once :
    ∀ es : List ShellEvent,
      (∀ l r, es = l ++ ShellEvent.stopCall :: r → (shellRun l).stops = 0) →
      (shellRun es).stops ≤ 1 ∧
      (ShellEvent.stopCall ∈ es → (shellRun es).stops = 1) ∧
      (∀ l m r,
        es = l ++ ShellEvent.readerExit :: m ++
          ShellEvent.deliverFinished :: r →
        (shellRun l).threadAlive = true → (shellRun es).stops = 1) := by
  intro es H
  unfold shellRun at H ⊢
  have hle : (es.foldl shellStep startedState).stops ≤ 1 := by
    by_contra hcon
    push_neg at hcon
    obtain ⟨l, e, r, hsplit, hl, hstep⟩ :=
      stops_crossing es startedState 1 (by simp [startedState]) hcon
    have hinv : ShellInv (l.foldl shellStep startedState) :=
      shellFold_inv l startedState shellInv_started
    have hstep' : (shellStep (l.foldl shellStep startedState) e).stops
        = (l.foldl shellStep startedState).stops + 1 := by
      rw [hl]
      exact hstep
    rcases shellStep_emit_cases _ _ hstep' with he | ⟨_, _, hrun⟩
    · subst he
      have hH := H l r hsplit
      omega
    · have h0 := hinv.1 hrun
      omega
  refine ⟨hle, ?_, ?_⟩
  · intro hmem
    obtain ⟨l, r, hsplit⟩ := List.append_of_mem hmem
    subst hsplit
    rw [List.foldl_append, List.foldl_cons] at hle ⊢
    have hstep : (shellStep (l.foldl shellStep startedState)
        ShellEvent.stopCall).stops
        = (l.foldl shellStep startedState).stops + 1 := rfl
    have hmono := shellFold_stops_mono r
      (shellStep (l.foldl shellStep startedState) ShellEvent.stopCall)
    omega
  · intro l m r hsplit halive
    subst hsplit
    rw [show l ++ ShellEvent.readerExit :: m ++
          ShellEvent.deliverFinished :: r
        = ((l ++ [ShellEvent.readerExit]) ++ m) ++
          ShellEvent.deliverFinished :: r by simp] at hle ⊢
    rw [List.foldl_append, List.foldl_append, List.foldl_append,
      List.foldl_cons] at hle ⊢
    have hX : ([ShellEvent.readerExit].foldl shellStep
        (l.foldl shellStep startedState))
        = { l.foldl shellStep startedState with
            threadAlive := false, finishedPending := true } := by
      simp only [List.foldl_cons, List.foldl_nil]
      simp only [shellStep, if_pos halive]
    set Y := m.foldl shellStep ([ShellEvent.readerExit].foldl shellStep
      (l.foldl shellStep startedState)) with hYdef
    have hYinv : ShellInv Y := by
      rw [hYdef]
      exact shellFold_inv m _ (shellFold_inv [ShellEvent.readerExit] _
        (shellFold_inv l startedState shellInv_started))
    have hYalive : Y.threadAlive = false := by
      rw [hYdef, hX]
      exact shellFold_alive_mono m _ rfl
    have hstep1 : 1 ≤ (shellStep Y ShellEvent.deliverFinished).stops := by
      by_cases hs : 1 ≤ Y.stops
      · have := shellStep_stops_le Y ShellEvent.deliverFinished
        omega
      · push_neg at hs
        have hs0 : Y.stops = 0 := by omega
        have hrunY : Y.shell_running = true := by
          cases hYr : Y.shell_running
          · have := hYinv.2.1 hYr
            omega
          · rfl
        have hpend : Y.finishedPending = true := by
          cases hYp : Y.finishedPending
          · have := hYinv.2.2 hYp hYalive
            omega
          · rfl
        simp only [shellStep, if_pos hpend, if_pos hrunY]
        show 1 ≤ Y.stops + 1
        omega
    have hmono := shellFold_stops_mono r
      (shellStep Y ShellEvent.deliverFinished)
    omega

/-- Closed instance of C9: the reader dying on its own followed by the
delivery of its completion signal produces exactly one notification. -/
theorem shell_stop_notified_once_witness :
    (shellRun [ShellEvent.readerExit, ShellEvent.deliverFinished]).stops
      = 1 := by
  have H : ∀ l r, [ShellEvent.readerExit, ShellEvent.deliverFinished]
      = l ++ ShellEvent.stopCall :: r → (shellRun l).stops = 0 := by
    intro l r h
    have hmem : ShellEvent.stopCall ∈
        [ShellEvent.readerExit, ShellEvent.deliverFinished] := by
      rw [h]
      exact List.mem_append_right l (List.mem_cons_self _ _)
    simp at hmem
  exact (shell_stop_notified_once
    [ShellEvent.readerExit, ShellEvent.deliverFinished] H).2.2 [] [] []
    rfl rfl

end Sshwomper
